import Mathlib

/-!
Verification of the reconciliation and normalization pipeline of
`src/discogs.py` (record-collection sync script).

The embedding models Python values with the inductive `PyVal` (the script
only ever handles `None`, strings, integers, lists and string-keyed dicts),
Python truthiness with `truthy`, and fallible Python code with
`Except String` (an `Except.error` models a raised exception).  Each
definition is a direct transcription of the corresponding source function;
line numbers in the doc comments refer to `src/discogs.py`.
-/

set_option autoImplicit false

/-- Python values as handled by the script: `None`, `str`, `int`,
`list`, and string-keyed `dict` (kept as an association list in
insertion order). -/
inductive PyVal where
  | none
  | str (s : String)
  | int (n : Int)
  | list (xs : List PyVal)
  | dict (kvs : List (String × PyVal))

/-- Python truthiness: `None`, `""`, `0`, `[]` and `{}` are falsy. -/
def truthy : PyVal → Bool
  | PyVal.none => false
  | PyVal.str s => s != ""
  | PyVal.int n => n != 0
  | PyVal.list xs => !xs.isEmpty
  | PyVal.dict kvs => !kvs.isEmpty

/-- Python `a or b` (restricted to the value domain): `a` if truthy, else `b`. -/
def pyOr (a b : PyVal) : PyVal := if truthy a then a else b

/-- `d.get(k, dflt)` on a dict given as an association list: value of the
first binding of `k`, else `dflt`. -/
def lookupD (kvs : List (String × PyVal)) (k : String) (d : PyVal) : PyVal :=
  match kvs.find? (fun kv => kv.1 == k) with
  | some kv => kv.2
  | Option.none => d

/-- `v.get(k, dflt)` for an arbitrary value `v`: succeeds only when `v` is a
dict; calling `.get` on anything else raises `AttributeError`. -/
def dictGetE : PyVal → String → PyVal → Except String PyVal
  | PyVal.dict kvs, k, d => Except.ok (lookupD kvs k d)
  | _, _, _ => Except.error "AttributeError: get"

/-- Whitespace characters recognized by `re`'s `\s` and `str.strip`
(ASCII fragment, which is all the script's data contains). -/
def wsChar (c : Char) : Bool :=
  c == ' ' || c == '\t' || c == '\n' || c == '\r' || c == '\x0b' || c == '\x0c'

/-- The three chained `str.replace` calls of `clean_text` (line 23):
`\r`, `\n` and `\t` each become a space; characterwise. -/
def replaceRNT (c : Char) : Char :=
  if c == '\r' || c == '\n' || c == '\t' then ' ' else c

/-- `re.sub(r"\s+", " ", s)` (line 24): every maximal run of whitespace
collapses to a single space.  The flag records whether we are inside a
run that has already emitted its space. -/
def collapseWS (inRun : Bool) : List Char → List Char
  | [] => []
  | c :: rest =>
    if wsChar c then
      (if inRun then collapseWS true rest else ' ' :: collapseWS true rest)
    else c :: collapseWS false rest

/-- Right half of `str.strip`: drop trailing whitespace. -/
def dropTrailingWS : List Char → List Char
  | [] => []
  | c :: rest =>
    match dropTrailingWS rest with
    | [] => if wsChar c then [] else [c]
    | r => c :: r

/-- `str.strip()`: drop leading and trailing whitespace. -/
def stripChars (l : List Char) : List Char :=
  dropTrailingWS (l.dropWhile wsChar)

/-- `str.strip()` on strings. -/
def stripStr (s : String) : String := String.mk (stripChars s.toList)

mutual
/-- Python `repr`, restricted to the value domain (string escaping inside
`repr` of containers is simplified; `clean_text` only ever consumes the
result as an opaque character sequence). -/
def pyRepr : PyVal → String
  | PyVal.none => "None"
  | PyVal.int n => toString n
  | PyVal.str s => "\x27" ++ s ++ "\x27"
  | PyVal.list xs => "[" ++ ", ".intercalate (pyReprList xs) ++ "]"
  | PyVal.dict kvs => "\x7b" ++ ", ".intercalate (pyReprPairs kvs) ++ "\x7d"

/-- `repr` of the elements of a list. -/
def pyReprList : List PyVal → List String
  | [] => []
  | x :: xs => pyRepr x :: pyReprList xs

/-- `repr` of the bindings of a dict. -/
def pyReprPairs : List (String × PyVal) → List String
  | [] => []
  | (k, v) :: kvs => ("\x27" ++ k ++ "\x27: " ++ pyRepr v) :: pyReprPairs kvs
end

/-- Python `str(v)`: identity on strings, `repr`-based otherwise. -/
def pyStr : PyVal → String
  | PyVal.str s => s
  | v => pyRepr v

/-- Character-level body of `clean_text` (lines 23-24): replace `\r`, `\n`,
`\t` by spaces, collapse whitespace runs, strip the ends. -/
def cleanChars (l : List Char) : List Char :=
  stripChars (collapseWS false (l.map replaceRNT))

/-- `clean_text` applied to a value that is already a string. -/
def cleanStr (s : String) : String := String.mk (cleanChars s.toList)

/-- `clean_text` (lines 20-24): `None` becomes `""`; any other value is
converted with `str()` and whitespace-normalized. -/
def clean_text (v : PyVal) : String :=
  match v with
  | PyVal.none => ""
  | v => cleanStr (pyStr v)

/-- First char is not whitespace (vacuously true for `[]`). -/
def headNotWs : List Char → Bool
  | [] => true
  | c :: _ => !wsChar c

/-- Last char is not whitespace (vacuously true for `[]`). -/
def lastNotWs : List Char → Bool
  | [] => true
  | [c] => !wsChar c
  | _ :: rest => lastNotWs rest

/-- Every whitespace char is a plain space. -/
def allSpace (l : List Char) : Bool := l.all (fun c => !wsChar c || c == ' ')

/-- No two adjacent whitespace chars. -/
def noAdj : List Char → Bool
  | a :: b :: rest => !(wsChar a && wsChar b) && noAdj (b :: rest)
  | _ => true

/-- A string is single-line and whitespace-normalized: its only whitespace
is single interior spaces. -/
def isNormalized (s : String) : Bool :=
  allSpace s.toList && noAdj s.toList && headNotWs s.toList && lastNotWs s.toList

/-- `isinstance(v, dict)`. -/
def isDictB : PyVal → Bool
  | PyVal.dict _ => true
  | _ => false

/-- `isinstance(v, list)`. -/
def isListB : PyVal → Bool
  | PyVal.list _ => true
  | _ => false

/-- Python iteration `for x in v`: lists yield elements, strings yield
one-character strings, dicts yield their keys; anything else raises
`TypeError`. -/
def pyIter : PyVal → Except String (List PyVal)
  | PyVal.list xs => Except.ok xs
  | PyVal.str s => Except.ok (s.toList.map (fun c => PyVal.str (String.mk [c])))
  | PyVal.dict kvs => Except.ok (kvs.map (fun kv => PyVal.str kv.1))
  | _ => Except.error "TypeError: not iterable"

/-- `(v or "").strip()` (lines 47-49, 56): a falsy value becomes `""`;
a truthy non-string has no `.strip` and raises `AttributeError`. -/
def stripAttr (v : PyVal) : Except String String :=
  match pyOr v (PyVal.str "") with
  | PyVal.str s => Except.ok (stripStr s)
  | _ => Except.error "AttributeError: strip"

/-- `str.join` materializes its argument and requires every element to be a
string, raising `TypeError` otherwise. -/
def joinStrsE : List PyVal → Except String (List String)
  | [] => Except.ok []
  | v :: rest =>
    match v with
    | PyVal.str s => do
        let tail ← joinStrsE rest
        Except.ok (s :: tail)
    | _ => Except.error "TypeError: join expects str"

/-- `o.get(k, d)` for an `o` already known (by an `isinstance` filter) to be
a dict; on any other value it just returns the default. -/
def objGet (o : PyVal) (k : String) (d : PyVal) : PyVal :=
  match o with
  | PyVal.dict kvs => lookupD kvs k d
  | _ => d

/-- `join_names` (lines 27-31): `|`-join of the `name` of every element
that is a dict with a truthy name; non-list input yields `""`. -/
def join_names (objs : PyVal) : Except String String :=
  match objs with
  | PyVal.list xs => do
      let picked := xs.filter (fun o => isDictB o && truthy (objGet o "name" PyVal.none))
      let strs ← joinStrsE (picked.map (fun o => objGet o "name" (PyVal.str "")))
      Except.ok ("|".intercalate strs)
  | _ => Except.ok ""

/-- The keyword list of the color/edition sniff (line 57). -/
def keywordList : List String :=
  ["colored", "red", "blue", "green", "marbled", "splatter", "limited",
   "reissue", "remastered", "club"]

/-- `needle in hay` on character lists (substring containment). -/
def isSubChars (needle : List Char) : List Char → Bool
  | [] => needle.isEmpty
  | c :: rest => needle.isPrefixOf (c :: rest) || isSubChars needle rest

/-- Python `str.lower` (ASCII fragment). -/
def lowerString (s : String) : String := String.mk (s.toList.map Char.toLower)

/-- `any(k in d.lower() for k in [...])` (line 57). -/
def kwMatch (d : String) : Bool :=
  keywordList.any (fun k => isSubChars k.toList (lowerString d).toList)

/-- The inner description loop of `summarize_formats` (lines 55-58): strip
each description; keep it as a variant bit when non-empty and matching a
keyword. -/
def descBits : List PyVal → Except String (List String)
  | [] => Except.ok []
  | d :: rest => do
      let ds ← stripAttr d
      let tail ← descBits rest
      Except.ok ((if ds != "" && kwMatch ds then [ds] else []) ++ tail)

/-- One iteration of the `for fmt in fmt_list` loop of `summarize_formats`
(lines 44-66): yields the variant bits this entry contributes and the
summary piece (empty list when the piece reduces to empty or the entry is
not a dict). -/
def entryResult (fmt : PyVal) : Except String (List String × List String) :=
  match fmt with
  | PyVal.dict kvs => do
      let name ← stripAttr (lookupD kvs "name" PyVal.none)
      let qty ← stripAttr (lookupD kvs "qty" PyVal.none)
      let text ← stripAttr (lookupD kvs "text" PyVal.none)
      let descs ← pyIter (pyOr (lookupD kvs "descriptions" (PyVal.list [])) (PyVal.list []))
      let bits2 ← descBits descs
      let joined ← joinStrsE (descs.filter truthy)
      let piece0 := stripStr (" ".intercalate (name :: joined))
      let piece1 := if text != "" then stripStr (piece0 ++ " (" ++ text ++ ")") else piece0
      let piece2 := if qty != "" then stripStr (piece1 ++ " x" ++ qty) else piece1
      Except.ok ((if text != "" then [text] else []) ++ bits2,
                 if piece2 != "" then [piece2] else [])
  | _ => Except.ok ([], [])

/-- The whole `for fmt in fmt_list` loop: concatenates variant bits and
summary pieces across entries in order. -/
def summarizeEntries : List PyVal → Except String (List String × List String)
  | [] => Except.ok ([], [])
  | fmt :: rest => do
      let bp ← entryResult fmt
      let bpr ← summarizeEntries rest
      Except.ok (bp.1 ++ bpr.1, bp.2 ++ bpr.2)

/-- The `seen`-set dedup comprehension of line 70, with the membership list
as accumulator: keep the first occurrence of each string, preserve order. -/
def dedupFirstAux (seen : List String) : List String → List String
  | [] => []
  | b :: rest =>
    if seen.contains b then dedupFirstAux seen rest
    else b :: dedupFirstAux (b :: seen) rest

/-- `[b for b in variant_bits if not (b in seen or seen.add(b))]` (lines 69-70). -/
def dedupFirst (l : List String) : List String := dedupFirstAux [] l

/-- `summarize_formats` (lines 34-71): summary string and variant string;
non-list input yields `("", "")`.  (The `or ""` of line 70 is a no-op:
joining the empty list already gives `""`.) -/
def summarize_formats (fmt_list : PyVal) : Except String (String × String) :=
  match fmt_list with
  | PyVal.list fmts =>
      (summarizeEntries fmts).map (fun bp =>
        ("|".intercalate bp.2,
         clean_text (PyVal.str ("|".intercalate (dedupFirst bp.1)))))
  | _ => Except.ok ("", "")

/-- `pick` (lines 84-86): `(full or {}).get(key) or (basic or {}).get(key, default)`,
with Python's short-circuit: the basic lookup only runs when the full
lookup is falsy. -/
def pick (key : String) (full basic : PyVal) (dflt : PyVal) : Except String PyVal := do
  let a ← dictGetE (pyOr full (PyVal.dict [])) key PyVal.none
  if truthy a then Except.ok a
  else dictGetE (pyOr basic (PyVal.dict [])) key dflt

/-- The catno comprehension of line 138:
`"|".join([l.get("catno","") for l in (labels or []) if isinstance(l, dict) and l.get("catno")])`. -/
def catnoJoin (labels : PyVal) : Except String String := do
  let xs ← pyIter (pyOr labels (PyVal.list []))
  let picked := xs.filter (fun o => isDictB o && truthy (objGet o "catno" PyVal.none))
  let strs ← joinStrsE (picked.map (fun o => objGet o "catno" (PyVal.str "")))
  Except.ok ("|".intercalate strs)

/-- `"|".join(v or [])` (lines 139-140, for genres and styles). -/
def pipeJoin (v : PyVal) : Except String String := do
  let xs ← pyIter (pyOr v (PyVal.list []))
  let strs ← joinStrsE xs
  Except.ok ("|".intercalate strs)

/-- The output row (lines 127-143).  `release_id` and `master_id` keep their
raw values; the remaining fields are strings by construction. -/
structure Row where
  release_id : PyVal
  master_id : PyVal
  artist : String
  title : String
  date_added : String
  variant : String
  format : String
  release_date : String
  country : String
  label : String
  catno : String
  genres : String
  styles : String

/-- One collection item as the loop body sees it: `data` models `item.data`
(the raw collection entry `ci`), `releaseId` models
`getattr(item.release, "id", None)`, and `fetchResult` models the outcome
of `d.release(rel_id).data` for this item (`Except.error e` is an
`HTTPError` with text `e`). -/
structure Item where
  data : PyVal
  releaseId : PyVal
  fetchResult : Except String PyVal

/-- Lines 102-105: `ci = item.data or {}`,
`basic = ci.get("basic_information", {}) or {}`,
`rel_id = getattr(item.release, "id", None) or basic.get("id")`
(the basic lookup short-circuited away when the attribute is truthy). -/
def itemCtx (it : Item) : Except String (PyVal × PyVal × PyVal) := do
  let ci := pyOr it.data (PyVal.dict [])
  let basicRaw ← dictGetE ci "basic_information" (PyVal.dict [])
  let basic := pyOr basicRaw (PyVal.dict [])
  let relId ← if truthy it.releaseId then Except.ok it.releaseId
              else dictGetE basic "id" PyVal.none
  Except.ok (ci, basic, relId)

/-- Lines 117-143: assemble the output row from the resolved context,
in the source's evaluation order. -/
def assembleRow (relId ci basic full : PyVal) : Except String Row := do
  let artists ← pick "artists" full basic (PyVal.list [])
  let labels ← pick "labels" full basic (PyVal.list [])
  let formats ← pick "formats" full basic (PyVal.list [])
  let genres ← pick "genres" full basic (PyVal.list [])
  let styles ← pick "styles" full basic (PyVal.list [])
  let _identifiers ← dictGetE (pyOr full (PyVal.dict [])) "identifiers" (PyVal.list [])
  let fv ← summarize_formats formats
  let master_id ← pick "master_id" full basic PyVal.none
  let artistS ← join_names artists
  let titleV ← pick "title" full basic (PyVal.str "")
  let dateAddedV ← dictGetE ci "date_added" PyVal.none
  let rdFormatted ← dictGetE basic "released_formatted" PyVal.none
  let rdYear ← dictGetE basic "year" PyVal.none
  let releasedV ← pick "released" full basic (pyOr rdFormatted rdYear)
  let countryV ← pick "country" full basic (PyVal.str "")
  let labelS ← join_names labels
  let catnoS ← catnoJoin labels
  let genresS ← pipeJoin genres
  let stylesS ← pipeJoin styles
  Except.ok
    { release_id := relId
      master_id := master_id
      artist := clean_text (PyVal.str artistS)
      title := clean_text titleV
      date_added := clean_text dateAddedV
      variant := fv.2
      format := fv.1
      release_date := clean_text releasedV
      country := clean_text countryV
      label := clean_text (PyVal.str labelS)
      catno := catnoS
      genres := genresS
      styles := stylesS }

/-- The body of the `for item in folder.releases` loop (lines 98-145) for a
single item: `Except.ok Option.none` is a silent skip (no row), and the
`includeFull` flag is `INCLUDE_FULL_RELEASE`.  On an `HTTPError` the full
record is the `_fetch_error` sentinel dict (lines 109-115). -/
def processItem (includeFull : Bool) (it : Item) : Except String (Option Row) := do
  let ctx ← itemCtx it
  if truthy ctx.2.2 = false then Except.ok Option.none
  else do
    let full := if includeFull then
        (match it.fetchResult with
         | Except.ok d => pyOr d (PyVal.dict [])
         | Except.error e => PyVal.dict [("_fetch_error", PyVal.str e)])
      else PyVal.dict []
    let row ← assembleRow ctx.2.2 ctx.1 ctx.2.1 full
    Except.ok (some row)

/-- `fetch_rows` (lines 89-150) over a fixed item sequence: the network
client, pagination, rate-limit sleeps and progress prints are outside the
model; any exception other than the contained per-item `HTTPError` aborts
the run (propagates as `Except.error`). -/
def fetch_rows (includeFull : Bool) : List Item → Except String (List Row)
  | [] => Except.ok []
  | it :: rest => do
      let r? ← processItem includeFull it
      let rs ← fetch_rows includeFull rest
      match r? with
      | some r => Except.ok (r :: rs)
      | Option.none => Except.ok rs

/-- An item has a resolvable release identity: its context resolves without
error and the resolved `rel_id` is truthy. -/
def hasIdent (it : Item) : Bool :=
  match itemCtx it with
  | Except.ok ctx => truthy ctx.2.2
  | Except.error _ => false

/-- A value that `.strip()` accepts without raising: a string, or falsy
(which `or ""` replaces by `""`). -/
def strOrFalsy (v : PyVal) : Bool :=
  match v with
  | PyVal.str _ => true
  | v => !truthy v

/-- Well-formedness of one format entry, sufficient for `summarize_formats`
to process it without raising: `name`, `qty`, `text` are strings or falsy,
and `descriptions` is either falsy or a list of strings-or-falsy values.
Non-dict entries are always fine (they are skipped). -/
def wfEntry (v : PyVal) : Bool :=
  match v with
  | PyVal.dict kvs =>
      strOrFalsy (lookupD kvs "name" PyVal.none) &&
      strOrFalsy (lookupD kvs "qty" PyVal.none) &&
      strOrFalsy (lookupD kvs "text" PyVal.none) &&
      (match lookupD kvs "descriptions" (PyVal.list []) with
       | PyVal.list ds => ds.all strOrFalsy
       | d => !truthy d)
  | _ => true

/-- Concrete item with no resolvable release identity: empty `item.data`
and a `None` release attribute. -/
def itemNoId : Item :=
  { data := PyVal.dict [], releaseId := PyVal.none, fetchResult := Except.ok PyVal.none }

/-- Concrete item whose release identity comes from the release attribute. -/
def itemWithId : Item :=
  { data := PyVal.dict [], releaseId := PyVal.int 1, fetchResult := Except.ok PyVal.none }

/-- The row `itemWithId` produces with enrichment disabled. -/
def rowWithId : Row :=
  { release_id := PyVal.int 1, master_id := PyVal.none, artist := "", title := "",
    date_added := "", variant := "", format := "", release_date := "", country := "",
    label := "", catno := "", genres := "", styles := "" }

/-- Concrete item whose basic record carries a genre with an embedded
newline. -/
def genreNewlineItem : Item :=
  { data := PyVal.dict [("basic_information", PyVal.dict
      [("id", PyVal.int 1), ("genres", PyVal.list [PyVal.str "Rock\nPop"])])],
    releaseId := PyVal.none, fetchResult := Except.ok PyVal.none }

/-- Concrete item whose basic record has the `released` key present with a
falsy (empty-string) value next to truthy `released_formatted` and `year`. -/
def releasedEmptyItem : Item :=
  { data := PyVal.dict [("basic_information", PyVal.dict
      [("released", PyVal.str ""), ("released_formatted", PyVal.str "1999"),
       ("year", PyVal.int 1999)])],
    releaseId := PyVal.int 7, fetchResult := Except.ok PyVal.none }

/-- The format entry of the spec's worked example:
`{name:"Vinyl", qty:"1", text:"Red", descriptions:["LP","Album"]}`. -/
def vinylEntry : PyVal :=
  PyVal.dict [("name", PyVal.str "Vinyl"), ("qty", PyVal.str "1"),
              ("text", PyVal.str "Red"),
              ("descriptions", PyVal.list [PyVal.str "LP", PyVal.str "Album"])]

/-- A format entry whose `descriptions` value is a truthy non-iterable. -/
def intDescsEntry : PyVal :=
  PyVal.dict [("name", PyVal.str "Vinyl"), ("descriptions", PyVal.int 5)]

/-- A format entry whose `descriptions` value is a truthy string. -/
def strDescsEntry : PyVal :=
  PyVal.dict [("name", PyVal.str "Vinyl"), ("descriptions", PyVal.str "LP")]

/-! Invariants established by the `clean_text` pipeline. -/

theorem noAdj_tail {a : Char} {l : List Char} (h : noAdj (a :: l) = true) :
    noAdj l = true := by
  cases l with
  | nil => rfl
  | cons b rest => simp [noAdj] at h; exact h.2

theorem noAdj_cons_of_headNotWs (c : Char) {l : List Char}
    (h1 : headNotWs l = true) (h2 : noAdj l = true) : noAdj (c :: l) = true := by
  cases l with
  | nil => rfl
  | cons b rest =>
    simp [headNotWs] at h1
    simp [noAdj, h1, h2]

theorem noAdj_cons_of_notWs {c : Char} {l : List Char}
    (h1 : wsChar c = false) (h2 : noAdj l = true) : noAdj (c :: l) = true := by
  cases l with
  | nil => rfl
  | cons b rest => simp [noAdj, h1, h2]

theorem allSpace_cons (c : Char) (l : List Char) :
    allSpace (c :: l) = ((!wsChar c || c == ' ') && allSpace l) := rfl

theorem noAdj_cons_cons (a b : Char) (l : List Char) :
    noAdj (a :: b :: l) = (!(wsChar a && wsChar b) && noAdj (b :: l)) := rfl

theorem allSpace_collapseWS (b : Bool) (l : List Char) :
    allSpace (collapseWS b l) = true := by
  induction l generalizing b with
  | nil => rfl
  | cons c rest ih =>
    by_cases hc : wsChar c = true
    · cases b with
      | true => simpa [collapseWS, hc] using ih true
      | false =>
        simp only [collapseWS, hc, if_true, Bool.false_eq_true, if_false]
        rw [allSpace_cons, ih true]
        simp
    · simp only [Bool.not_eq_true] at hc
      simp only [collapseWS, hc, Bool.false_eq_true, if_false]
      rw [allSpace_cons, ih false, hc]
      simp

theorem headNotWs_collapseWS_true (l : List Char) :
    headNotWs (collapseWS true l) = true := by
  induction l with
  | nil => rfl
  | cons c rest ih =>
    by_cases hc : wsChar c = true
    · simpa [collapseWS, hc] using ih
    · simp only [Bool.not_eq_true] at hc
      simp [collapseWS, hc, headNotWs]

theorem noAdj_collapseWS (b : Bool) (l : List Char) :
    noAdj (collapseWS b l) = true := by
  induction l generalizing b with
  | nil => rfl
  | cons c rest ih =>
    by_cases hc : wsChar c = true
    · cases b with
      | true => simpa [collapseWS, hc] using ih true
      | false =>
        simp only [collapseWS, hc, if_true]
        exact noAdj_cons_of_headNotWs ' '
          (headNotWs_collapseWS_true rest) (ih true)
    · simp only [Bool.not_eq_true] at hc
      simp only [collapseWS, hc, if_false, Bool.false_eq_true]
      exact noAdj_cons_of_notWs hc (ih false)

theorem allSpace_dropWhile {l : List Char} (h : allSpace l = true) :
    allSpace (l.dropWhile wsChar) = true := by
  induction l with
  | nil => rfl
  | cons c rest ih =>
    simp [allSpace] at h
    by_cases hc : wsChar c = true
    · simp [List.dropWhile, hc]; exact ih (by simpa [allSpace] using h.2)
    · simp only [Bool.not_eq_true] at hc
      simpa [List.dropWhile, hc, allSpace] using h

theorem noAdj_dropWhile {l : List Char} (h : noAdj l = true) :
    noAdj (l.dropWhile wsChar) = true := by
  induction l with
  | nil => rfl
  | cons c rest ih =>
    by_cases hc : wsChar c = true
    · simp [List.dropWhile, hc]; exact ih (noAdj_tail h)
    · simp only [Bool.not_eq_true] at hc
      simpa [List.dropWhile, hc] using h

theorem headNotWs_dropWhile (l : List Char) :
    headNotWs (l.dropWhile wsChar) = true := by
  induction l with
  | nil => rfl
  | cons c rest ih =>
    by_cases hc : wsChar c = true
    · simpa [List.dropWhile, hc] using ih
    · simp only [Bool.not_eq_true] at hc
      simp [List.dropWhile, hc, headNotWs]

theorem dropTrailingWS_head? (l : List Char) :
    dropTrailingWS l = [] ∨ (dropTrailingWS l).head? = l.head? := by
  cases l with
  | nil => left; rfl
  | cons c rest =>
    simp only [dropTrailingWS]
    cases h : dropTrailingWS rest with
    | nil =>
      by_cases hc : wsChar c = true
      · left; simp [hc]
      · right; simp only [Bool.not_eq_true] at hc; simp [hc]
    | cons x xs => right; simp

theorem allSpace_dropTrailingWS {l : List Char} (h : allSpace l = true) :
    allSpace (dropTrailingWS l) = true := by
  induction l with
  | nil => rfl
  | cons c rest ih =>
    rw [allSpace_cons, Bool.and_eq_true] at h
    have hrest : allSpace (dropTrailingWS rest) = true := ih h.2
    simp only [dropTrailingWS]
    cases hd : dropTrailingWS rest with
    | nil =>
      by_cases hc : wsChar c = true
      · simp [hc, allSpace]
      · simp only [Bool.not_eq_true] at hc
        simp only [hc, Bool.false_eq_true, if_false]
        rw [allSpace_cons, hc]
        simp [allSpace]
    | cons x xs =>
      rw [hd] at hrest
      rw [allSpace_cons, hrest, h.1]
      rfl

theorem noAdj_dropTrailingWS {l : List Char} (h : noAdj l = true) :
    noAdj (dropTrailingWS l) = true := by
  induction l with
  | nil => rfl
  | cons c rest ih =>
    have hrest : noAdj (dropTrailingWS rest) = true := ih (noAdj_tail h)
    simp only [dropTrailingWS]
    cases hd : dropTrailingWS rest with
    | nil =>
      by_cases hc : wsChar c = true
      · simp [hc, noAdj]
      · simp only [Bool.not_eq_true] at hc; simp [hc, noAdj]
    | cons x xs =>
      rw [hd] at hrest
      cases rest with
      | nil => simp [dropTrailingWS] at hd
      | cons y ys =>
        have hh : x = y := by
          rcases dropTrailingWS_head? (y :: ys) with he | hh
          · rw [he] at hd; simp at hd
          · rw [hd] at hh; simpa using hh
        subst hh
        rw [noAdj_cons_cons, Bool.and_eq_true] at h
        rw [noAdj_cons_cons, Bool.and_eq_true]
        exact ⟨h.1, hrest⟩

theorem lastNotWs_cons {c : Char} {l : List Char} (hl : l ≠ []) :
    lastNotWs (c :: l) = lastNotWs l := by
  cases l with
  | nil => exact absurd rfl hl
  | cons x xs => rfl

theorem lastNotWs_dropTrailingWS (l : List Char) :
    lastNotWs (dropTrailingWS l) = true := by
  induction l with
  | nil => rfl
  | cons c rest ih =>
    simp only [dropTrailingWS]
    cases hd : dropTrailingWS rest with
    | nil =>
      by_cases hc : wsChar c = true
      · simp [hc, lastNotWs]
      · simp only [Bool.not_eq_true] at hc
        simp [hc, lastNotWs]
    | cons x xs =>
      rw [hd] at ih
      rw [lastNotWs_cons (by simp)]
      exact ih

theorem headNotWs_dropTrailingWS {l : List Char} (h : headNotWs l = true) :
    headNotWs (dropTrailingWS l) = true := by
  cases hl : dropTrailingWS l with
  | nil => rfl
  | cons x xs =>
    cases l with
    | nil => simp [dropTrailingWS] at hl
    | cons c rest =>
      have hh : x = c := by
        rcases dropTrailingWS_head? (c :: rest) with he | hh
        · rw [he] at hl; simp at hl
        · rw [hl] at hh; simpa using hh
      subst hh
      simpa [headNotWs] using h

theorem replaceRNT_eq_self {c : Char} (h : (!wsChar c || c == ' ') = true) :
    replaceRNT c = c := by
  by_cases hw : wsChar c = true
  · have hsp : c = ' ' := by
      rw [hw] at h
      exact eq_of_beq (by simpa using h)
    subst hsp; rfl
  · simp only [Bool.not_eq_true] at hw
    have h1 : (c == '\r') = false := by
      cases hb : (c == '\r') with
      | false => rfl
      | true => rw [eq_of_beq hb] at hw; simp [wsChar] at hw
    have h2 : (c == '\n') = false := by
      cases hb : (c == '\n') with
      | false => rfl
      | true => rw [eq_of_beq hb] at hw; simp [wsChar] at hw
    have h3 : (c == '\t') = false := by
      cases hb : (c == '\t') with
      | false => rfl
      | true => rw [eq_of_beq hb] at hw; simp [wsChar] at hw
    simp [replaceRNT, h1, h2, h3]

theorem map_replaceRNT_id {l : List Char} (h : allSpace l = true) :
    l.map replaceRNT = l := by
  induction l with
  | nil => rfl
  | cons c rest ih =>
    rw [allSpace_cons, Bool.and_eq_true] at h
    simp [replaceRNT_eq_self h.1, ih h.2]

theorem collapseWS_id {l : List Char} (h1 : allSpace l = true)
    (h2 : noAdj l = true) :
    collapseWS false l = l ∧ (headNotWs l = true → collapseWS true l = l) := by
  induction l with
  | nil => exact ⟨rfl, fun _ => rfl⟩
  | cons c rest ih =>
    rw [allSpace_cons, Bool.and_eq_true] at h1
    have ihr := ih h1.2 (noAdj_tail h2)
    by_cases hc : wsChar c = true
    · have hsp : c = ' ' := by
        rcases Bool.or_eq_true _ _ |>.mp h1.1 with hns | hsp
        · rw [hc] at hns; simp at hns
        · exact eq_of_beq hsp
      have hrest : headNotWs rest = true := by
        cases rest with
        | nil => rfl
        | cons x xs =>
          rw [noAdj_cons_cons, Bool.and_eq_true] at h2
          have := h2.1
          rw [hc] at this
          simpa [headNotWs] using this
      constructor
      · simp only [collapseWS, hc, if_true, Bool.false_eq_true, if_false, hsp]
        rw [ihr.2 hrest]
        simp [wsChar]
      · intro hh
        rw [hsp] at hh
        simp [headNotWs, wsChar] at hh
    · simp only [Bool.not_eq_true] at hc
      constructor
      · simp only [collapseWS, hc, Bool.false_eq_true, if_false]
        rw [ihr.1]
      · intro _
        simp only [collapseWS, hc, Bool.false_eq_true, if_false]
        rw [ihr.1]

theorem dropWhile_id {l : List Char} (h : headNotWs l = true) :
    l.dropWhile wsChar = l := by
  cases l with
  | nil => rfl
  | cons c rest =>
    simp [headNotWs] at h
    simp [List.dropWhile, h]

theorem dropTrailingWS_id {l : List Char} (h : lastNotWs l = true) :
    dropTrailingWS l = l := by
  induction l with
  | nil => rfl
  | cons c rest ih =>
    cases rest with
    | nil =>
      simp [lastNotWs] at h
      simp [dropTrailingWS, h]
    | cons x xs =>
      rw [lastNotWs_cons (by simp)] at h
      have hrw : dropTrailingWS (c :: x :: xs) =
          match dropTrailingWS (x :: xs) with
          | [] => if wsChar c = true then [] else [c]
          | r => c :: r := rfl
      rw [hrw, ih h]

theorem cleanChars_id {l : List Char} (h1 : allSpace l = true)
    (h2 : noAdj l = true) (h3 : headNotWs l = true) (h4 : lastNotWs l = true) :
    cleanChars l = l := by
  unfold cleanChars stripChars
  rw [map_replaceRNT_id h1, (collapseWS_id h1 h2).1, dropWhile_id h3,
    dropTrailingWS_id h4]

theorem cleanChars_invariants (l : List Char) :
    allSpace (cleanChars l) = true ∧ noAdj (cleanChars l) = true ∧
    headNotWs (cleanChars l) = true ∧ lastNotWs (cleanChars l) = true := by
  unfold cleanChars stripChars
  refine ⟨?_, ?_, ?_, ?_⟩
  · exact allSpace_dropTrailingWS (allSpace_dropWhile (allSpace_collapseWS false _))
  · exact noAdj_dropTrailingWS (noAdj_dropWhile (noAdj_collapseWS false _))
  · exact headNotWs_dropTrailingWS (headNotWs_dropWhile _)
  · exact lastNotWs_dropTrailingWS _

theorem cleanChars_idem (l : List Char) :
    cleanChars (cleanChars l) = cleanChars l := by
  obtain ⟨h1, h2, h3, h4⟩ := cleanChars_invariants l
  exact cleanChars_id h1 h2 h3 h4

theorem toList_mk (l : List Char) : (String.mk l).toList = l := rfl

theorem cleanStr_idem (s : String) : cleanStr (cleanStr s) = cleanStr s := by
  unfold cleanStr
  rw [toList_mk, cleanChars_idem]

theorem isNormalized_cleanStr (s : String) : isNormalized (cleanStr s) = true := by
  obtain ⟨h1, h2, h3, h4⟩ := cleanChars_invariants s.toList
  simp only [isNormalized, cleanStr, toList_mk, h1, h2, h3, h4]
  rfl

theorem clean_text_str (t : String) : clean_text (PyVal.str t) = cleanStr t := rfl

theorem clean_text_idem_val (v : PyVal) :
    clean_text (PyVal.str (clean_text v)) = clean_text v := by
  cases v with
  | none => decide
  | str s => rw [clean_text_str, clean_text_str, cleanStr_idem]
  | int n => rw [clean_text_str]; exact cleanStr_idem _
  | list xs => rw [clean_text_str]; exact cleanStr_idem _
  | dict kvs => rw [clean_text_str]; exact cleanStr_idem _

theorem isNormalized_clean_text (v : PyVal) :
    isNormalized (clean_text v) = true := by
  cases v with
  | none => decide
  | str s => exact isNormalized_cleanStr _
  | int n => exact isNormalized_cleanStr _
  | list xs => exact isNormalized_cleanStr _
  | dict kvs => exact isNormalized_cleanStr _

/-! Plumbing lemmas for the `Except` monad. -/

theorem ok_bind {α β : Type} (a : α) (f : α → Except String β) :
    (Except.ok a >>= f) = f a := rfl

theorem error_bind {α β : Type} (e : String) (f : α → Except String β) :
    ((Except.error e : Except String α) >>= f) = Except.error e := rfl

theorem bind_ok_elim {α β : Type} {a : Except String α} {f : α → Except String β}
    {r : β} (h : (a >>= f) = Except.ok r) :
    ∃ v, a = Except.ok v ∧ f v = Except.ok r := by
  cases a with
  | ok v => exact ⟨v, rfl, h⟩
  | error e => exact Except.noConfusion h

theorem map_ok_elim {α β : Type} {a : Except String α} {f : α → β} {r : β}
    (h : Except.map f a = Except.ok r) : ∃ v, a = Except.ok v ∧ f v = r := by
  cases a with
  | ok v =>
    have hv : (Except.map f (Except.ok v) : Except String β) = Except.ok (f v) := rfl
    rw [hv] at h
    injection h with h
    exact ⟨v, rfl, h⟩
  | error e => exact Except.noConfusion h

/-! Resolution lemmas for `pick`. -/

theorem dictGetE_orDict (kvs : List (String × PyVal)) (k : String) (d : PyVal) :
    dictGetE (pyOr (PyVal.dict kvs) (PyVal.dict [])) k d =
      Except.ok (lookupD kvs k d) := by
  cases kvs with
  | nil => rfl
  | cons kv rest => rfl

theorem pick_dict_eq (k : String) (full basic : List (String × PyVal)) (dflt : PyVal) :
    pick k (PyVal.dict full) (PyVal.dict basic) dflt =
      Except.ok (if truthy (lookupD full k PyVal.none) = true
                 then lookupD full k PyVal.none
                 else lookupD basic k dflt) := by
  unfold pick
  rw [dictGetE_orDict, ok_bind]
  split_ifs with h
  · rfl
  · exact dictGetE_orDict basic k dflt

theorem pick_none_dict (k : String) (kvs : List (String × PyVal)) (d : PyVal) :
    pick k PyVal.none (PyVal.dict kvs) d = Except.ok (lookupD kvs k d) := by
  unfold pick
  have h0 : dictGetE (pyOr PyVal.none (PyVal.dict [])) k PyVal.none =
      Except.ok PyVal.none := rfl
  rw [h0, ok_bind, if_neg (by decide)]
  exact dictGetE_orDict kvs k d

/-- Claim C9: TextNormalizer is total and idempotent: `clean_text` is
defined on every value (it is a total Lean function over `PyVal`,
including `None` and non-string scalars), applying it twice equals
applying it once, and `clean_text(None) = ""`. -/
theorem clean_text_total_idempotent :
    (∀ v : PyVal, clean_text (PyVal.str (clean_text v)) = clean_text v) ∧
    clean_text PyVal.none = "" :=
  ⟨clean_text_idem_val, rfl⟩

/-- Claim C1: `pick` is value-truthiness based, not key-presence based:
on dict records it returns the enriched (full) record's value when that
value is truthy, and otherwise the basic record's value whenever the key
is present in the basic record (even if that value is falsy), else the
supplied default.  A key absent from the full record reads as `None`
(falsy), so it also falls through. -/
theorem pick_value_truthiness_based (k : String)
    (full basic : List (String × PyVal)) (dflt : PyVal) :
    pick k (PyVal.dict full) (PyVal.dict basic) dflt =
      Except.ok
        (if truthy (lookupD full k PyVal.none) = true
         then lookupD full k PyVal.none
         else match basic.find? (fun kv => kv.1 == k) with
              | some kv => kv.2
              | Option.none => dflt) := by
  rw [pick_dict_eq]
  rfl

/-- Claim C10 (implicit): `pick` is total over missing records: a `None`
record behaves exactly like the empty dict `{}` in either position, the
result is the supplied default when both records are `None`/empty, and no
exception is raised (the result `isOk`) when the other record is a dict. -/
theorem pick_total_on_missing_records :
    (∀ (k : String) (b d : PyVal),
        pick k PyVal.none b d = pick k (PyVal.dict []) b d) ∧
    (∀ (k : String) (f d : PyVal),
        pick k f PyVal.none d = pick k f (PyVal.dict []) d) ∧
    (∀ (k : String) (d : PyVal), pick k PyVal.none PyVal.none d = Except.ok d) ∧
    (∀ (k : String) (d : PyVal),
        pick k (PyVal.dict []) (PyVal.dict []) d = Except.ok d) ∧
    (∀ (k : String) (kvs : List (String × PyVal)) (d : PyVal),
        (pick k PyVal.none (PyVal.dict kvs) d).isOk = true) ∧
    (∀ (k : String) (kvs : List (String × PyVal)) (d : PyVal),
        (pick k (PyVal.dict kvs) PyVal.none d).isOk = true) := by
  refine ⟨fun k b d => rfl, fun k f d => rfl, fun k d => rfl, fun k d => rfl,
    fun k kvs d => ?_, fun k kvs d => ?_⟩
  · rw [pick_none_dict]; rfl
  · unfold pick
    rw [dictGetE_orDict, ok_bind]
    split_ifs with h
    · rfl
    · rfl

/-! The `_fetch_error` sentinel record is indistinguishable from `{}`
for every key the row assembly reads. -/

theorem lookupD_sentinel (e : String) (k : String) (d : PyVal)
    (hk : (("_fetch_error" : String) == k) = false) :
    lookupD [("_fetch_error", PyVal.str e)] k d = d := by
  simp [lookupD, List.find?, hk]

theorem pick_sentinel (k : String) (e : String) (basic d : PyVal)
    (hk : (("_fetch_error" : String) == k) = false) :
    pick k (PyVal.dict [("_fetch_error", PyVal.str e)]) basic d =
      pick k (PyVal.dict []) basic d := by
  unfold pick
  rw [dictGetE_orDict, dictGetE_orDict, lookupD_sentinel e k PyVal.none hk]
  rfl

theorem assembleRow_sentinel (relId ci basic : PyVal) (e : String) :
    assembleRow relId ci basic (PyVal.dict [("_fetch_error", PyVal.str e)]) =
      assembleRow relId ci basic (PyVal.dict []) := by
  have hid : dictGetE (pyOr (PyVal.dict [("_fetch_error", PyVal.str e)])
        (PyVal.dict [])) "identifiers" (PyVal.list []) =
      dictGetE (pyOr (PyVal.dict []) (PyVal.dict [])) "identifiers" (PyVal.list []) := by
    rw [dictGetE_orDict, dictGetE_orDict,
      lookupD_sentinel e "identifiers" (PyVal.list []) (by decide)]
    rfl
  unfold assembleRow
  rw [pick_sentinel "artists" e basic (PyVal.list []) (by decide),
    pick_sentinel "labels" e basic (PyVal.list []) (by decide),
    pick_sentinel "formats" e basic (PyVal.list []) (by decide),
    pick_sentinel "genres" e basic (PyVal.list []) (by decide),
    pick_sentinel "styles" e basic (PyVal.list []) (by decide),
    pick_sentinel "master_id" e basic PyVal.none (by decide),
    pick_sentinel "title" e basic (PyVal.str "") (by decide),
    pick_sentinel "country" e basic (PyVal.str "") (by decide),
    hid]
  have hrel : ∀ d : PyVal,
      pick "released" (PyVal.dict [("_fetch_error", PyVal.str e)]) basic d =
        pick "released" (PyVal.dict []) basic d :=
    fun d => pick_sentinel "released" e basic d (by decide)
  simp only [hrel]

/-- Claim C2: enrichment-failure transparency: for any item whose detail
fetch fails (so the full record becomes the `_fetch_error` sentinel
mapping), `processItem` with enrichment enabled produces exactly the same
result — row for row, field for field — as `processItem` with enrichment
disabled on the same item data. -/
theorem enrichment_failure_transparency (dat rid : PyVal) (e : String)
    (fr : Except String PyVal) :
    processItem true { data := dat, releaseId := rid, fetchResult := Except.error e } =
      processItem false { data := dat, releaseId := rid, fetchResult := fr } := by
  unfold processItem
  have hctx : itemCtx { data := dat, releaseId := rid, fetchResult := Except.error e } =
      itemCtx { data := dat, releaseId := rid, fetchResult := fr } := rfl
  rw [hctx]
  cases hit : itemCtx { data := dat, releaseId := rid, fetchResult := fr } with
  | error er => rw [error_bind, error_bind]
  | ok ctx =>
    rw [ok_bind, ok_bind]
    by_cases hrel : truthy ctx.2.2 = false
    · rw [if_pos hrel, if_pos hrel]
    · rw [if_neg hrel, if_neg hrel]
      show (assembleRow ctx.2.2 ctx.1 ctx.2.1
              (PyVal.dict [("_fetch_error", PyVal.str e)]) >>=
            fun row => Except.ok (some row)) =
          (assembleRow ctx.2.2 ctx.1 ctx.2.1 (PyVal.dict []) >>=
            fun row => Except.ok (some row))
      rw [assembleRow_sentinel]

/-! Per-item emission behaviour (lines 105-107). -/

theorem processItem_ok_none_iff (f : Bool) (it : Item) :
    processItem f it = Except.ok Option.none ↔
      ∃ ctx, itemCtx it = Except.ok ctx ∧ truthy ctx.2.2 = false := by
  unfold processItem
  cases hit : itemCtx it with
  | error e =>
    rw [error_bind]
    constructor
    · intro h; exact Except.noConfusion h
    · rintro ⟨ctx, hc, _⟩; exact Except.noConfusion hc
  | ok ctx =>
    rw [ok_bind]
    by_cases hrel : truthy ctx.2.2 = false
    · rw [if_pos hrel]
      constructor
      · intro _; exact ⟨ctx, rfl, hrel⟩
      · intro _; rfl
    · rw [if_neg hrel]
      constructor
      · intro h
        obtain ⟨row, _, hr⟩ := bind_ok_elim h
        injection hr with hr
        exact Option.noConfusion hr
      · rintro ⟨ctx', hc, ht⟩
        injection hc with hc
        subst hc
        exact absurd ht hrel

theorem processItem_ok_some_ident {f : Bool} {it : Item} {r : Row}
    (h : processItem f it = Except.ok (some r)) :
    ∃ ctx, itemCtx it = Except.ok ctx ∧ truthy ctx.2.2 = true := by
  unfold processItem at h
  cases hit : itemCtx it with
  | error e => rw [hit, error_bind] at h; exact Except.noConfusion h
  | ok ctx =>
    rw [hit, ok_bind] at h
    by_cases hrel : truthy ctx.2.2 = false
    · rw [if_pos hrel] at h
      injection h with h
      exact Option.noConfusion h
    · refine ⟨ctx, rfl, ?_⟩
      cases hb : truthy ctx.2.2 with
      | false => exact absurd hb hrel
      | true => rfl

theorem hasIdent_of_ctx {it : Item} {ctx : PyVal × PyVal × PyVal}
    (hc : itemCtx it = Except.ok ctx) : hasIdent it = truthy ctx.2.2 := by
  unfold hasIdent
  rw [hc]

theorem fetch_rows_count (f : Bool) (items : List Item) (rows : List Row)
    (h : fetch_rows f items = Except.ok rows) :
    rows.length + items.countP (fun it => !hasIdent it) = items.length := by
  induction items generalizing rows with
  | nil =>
    rw [show fetch_rows f [] = Except.ok ([] : List Row) from rfl] at h
    injection h with h
    subst h
    rfl
  | cons it rest ih =>
    rw [show fetch_rows f (it :: rest) =
        (processItem f it >>= fun r? => fetch_rows f rest >>= fun rs =>
          match r? with
          | some r => Except.ok (r :: rs)
          | Option.none => Except.ok rs) from rfl] at h
    obtain ⟨r?, h1, h2⟩ := bind_ok_elim h
    obtain ⟨rs, h3, h4⟩ := bind_ok_elim h2
    have hrest := ih rs h3
    cases r? with
    | none =>
      injection h4 with h4
      subst h4
      have hskip : hasIdent it = false := by
        obtain ⟨ctx, hc, ht⟩ := (processItem_ok_none_iff f it).mp h1
        rw [hasIdent_of_ctx hc, ht]
      rw [List.countP_cons]
      simp [hskip]
      omega
    | some r =>
      injection h4 with h4
      subst h4
      have hkeep : hasIdent it = true := by
        obtain ⟨ctx, hc, ht⟩ := processItem_ok_some_ident h1
        rw [hasIdent_of_ctx hc, ht]
      rw [List.countP_cons]
      simp [hkeep]
      omega

/-- Claim C5: row existence iff release identity: under a successful run,
the number of emitted rows plus the number of identity-less items equals
the number of input items; an item whose resolved release identity is
falsy is skipped silently (`Except.ok Option.none`: no row, no error); and
an item that does produce a row has a truthy resolved identity. -/
theorem row_existence_iff_identity :
    (∀ (f : Bool) (items : List Item) (rows : List Row),
        fetch_rows f items = Except.ok rows →
        rows.length + items.countP (fun it => !hasIdent it) = items.length) ∧
    (∀ (f : Bool) (it : Item) (ctx : PyVal × PyVal × PyVal),
        itemCtx it = Except.ok ctx → hasIdent it = false →
        processItem f it = Except.ok Option.none) ∧
    (∀ (f : Bool) (it : Item) (r : Row),
        processItem f it = Except.ok (some r) → hasIdent it = true) := by
  refine ⟨fetch_rows_count, ?_, ?_⟩
  · intro f it ctx hc hid
    rw [hasIdent_of_ctx hc] at hid
    exact (processItem_ok_none_iff f it).mpr ⟨ctx, hc, hid⟩
  · intro f it r h
    obtain ⟨ctx, hc, ht⟩ := processItem_ok_some_ident h
    rw [hasIdent_of_ctx hc, ht]

/-- Witness for `row_existence_iff_identity` at concrete inputs: a run over
one identity-less item and one identified item. -/
theorem row_existence_iff_identity_witness :
    ([] : List Row).length + [itemNoId].countP (fun it => !hasIdent it) =
        [itemNoId].length ∧
    processItem false itemNoId = Except.ok Option.none ∧
    hasIdent itemWithId = true :=
  ⟨row_existence_iff_identity.1 false [itemNoId] [] rfl,
   row_existence_iff_identity.2.1 false itemNoId
     (pyOr itemNoId.data (PyVal.dict []), PyVal.dict [], PyVal.none) rfl rfl,
   row_existence_iff_identity.2.2 false itemWithId rowWithId rfl⟩

/-! First-occurrence deduplication (lines 69-70). -/

theorem dedupFirstAux_cons (seen : List String) (b : String) (rest : List String) :
    dedupFirstAux seen (b :: rest) =
      if seen.contains b then dedupFirstAux seen rest
      else b :: dedupFirstAux (b :: seen) rest := rfl

theorem contains_cons_self (b : String) (seen : List String) :
    (b :: seen).contains b = true := by
  simp

theorem contains_cons (c b : String) (seen : List String) :
    (c :: seen).contains b = (b == c || seen.contains b) :=
  List.contains_cons

theorem dedupFirstAux_congr (seen1 seen2 l : List String)
    (h : ∀ b, seen1.contains b = seen2.contains b) :
    dedupFirstAux seen1 l = dedupFirstAux seen2 l := by
  induction l generalizing seen1 seen2 with
  | nil => rfl
  | cons b rest ih =>
    rw [dedupFirstAux_cons, dedupFirstAux_cons, h b]
    split_ifs with hb
    · exact ih seen1 seen2 h
    · have hcc : ∀ x, (b :: seen1).contains x = (b :: seen2).contains x := by
        intro x
        rw [contains_cons, contains_cons, h x]
      rw [ih (b :: seen1) (b :: seen2) hcc]

theorem dedupFirstAux_insert (x : String) (seen l : List String) :
    dedupFirstAux (x :: seen) l =
      dedupFirstAux seen (l.filter (fun b => !(b == x))) := by
  induction l generalizing seen with
  | nil => rfl
  | cons b rest ih =>
    rw [List.filter_cons]
    by_cases hbx : (b == x) = true
    · have hc : (x :: seen).contains b = true := by
        rw [contains_cons, hbx]
        rfl
      rw [dedupFirstAux_cons, hc]
      simp only [hbx, Bool.not_true, Bool.false_eq_true, if_false, if_true]
      exact ih seen
    · have hbx2 : (b == x) = false := by
        cases hv : (b == x) with
        | false => rfl
        | true => exact absurd hv hbx
      have hc : (x :: seen).contains b = seen.contains b := by
        rw [contains_cons, hbx2]
        rfl
      simp only [hbx2, Bool.not_false, if_true]
      rw [dedupFirstAux_cons, dedupFirstAux_cons, hc]
      split_ifs with hcs
      · exact ih seen
      · have hcongr : ∀ y, (b :: x :: seen).contains y = (x :: b :: seen).contains y := by
          intro y
          rw [contains_cons, contains_cons, contains_cons, contains_cons]
          cases y == b <;> cases y == x <;> simp
        rw [dedupFirstAux_congr (b :: x :: seen) (x :: b :: seen) rest hcongr,
          ih (b :: seen)]

theorem dedupFirst_cons (a : String) (l : List String) :
    dedupFirst (a :: l) = a :: dedupFirst (l.filter (fun b => !(b == a))) := by
  have h0 : dedupFirst (a :: l) = a :: dedupFirstAux [a] l := rfl
  rw [h0, dedupFirstAux_insert a [] l]
  rfl

theorem dedupFirstAux_nodup (seen l : List String) :
    (dedupFirstAux seen l).Nodup ∧
      ∀ x ∈ dedupFirstAux seen l, seen.contains x = false := by
  induction l generalizing seen with
  | nil => exact ⟨List.nodup_nil, by intro x hx; exact absurd hx (List.not_mem_nil x)⟩
  | cons b rest ih =>
    rw [dedupFirstAux_cons]
    by_cases hb : seen.contains b = true
    · rw [if_pos hb]
      exact ih seen
    · rw [if_neg hb]
      obtain ⟨hnd, hmem⟩ := ih (b :: seen)
      have hb2 : seen.contains b = false := by
        cases hv : seen.contains b with
        | false => rfl
        | true => exact absurd hv hb
      constructor
      · rw [List.nodup_cons]
        refine ⟨?_, hnd⟩
        intro hbmem
        have := hmem b hbmem
        rw [contains_cons_self] at this
        exact Bool.noConfusion this
      · intro x hx
        rcases List.mem_cons.mp hx with hxb | hxrest
        · rw [hxb]; exact hb2
        · have := hmem x hxrest
          rw [contains_cons] at this
          cases hv : seen.contains x with
          | false => rfl
          | true => rw [hv] at this; simp at this

theorem dedupFirstAux_sublist (seen l : List String) :
    List.Sublist (dedupFirstAux seen l) l := by
  induction l generalizing seen with
  | nil => exact List.Sublist.refl []
  | cons b rest ih =>
    rw [dedupFirstAux_cons]
    by_cases hb : seen.contains b = true
    · rw [if_pos hb]
      exact List.Sublist.cons b (ih seen)
    · rw [if_neg hb]
      exact List.Sublist.cons₂ b (ih (b :: seen))

/-- Claim C6: the variant output of `summarize_formats` is the `|`-join of
the collected variant bits deduplicated by exact string equality keeping
the first occurrence (order otherwise preserved: the result is a
duplicate-free sublist of the bit sequence), then passed through
TextNormalizer; bits `["Red","Limited","Red"]` yield variant
`"Red|Limited"`; any non-list input yields `("", "")`. -/
theorem variant_dedup_first_occurrence :
    (∀ fmts : List PyVal,
        summarize_formats (PyVal.list fmts) =
          (summarizeEntries fmts).map (fun bp =>
            ("|".intercalate bp.2,
             clean_text (PyVal.str ("|".intercalate (dedupFirst bp.1)))))) ∧
    (∀ (a : String) (l : List String),
        dedupFirst (a :: l) = a :: dedupFirst (l.filter (fun b => !(b == a)))) ∧
    dedupFirst [] = [] ∧
    (∀ l : List String, (dedupFirst l).Nodup) ∧
    (∀ l : List String, List.Sublist (dedupFirst l) l) ∧
    summarize_formats (PyVal.list
      [PyVal.dict [("text", PyVal.str "Red")],
       PyVal.dict [("text", PyVal.str "Limited")],
       PyVal.dict [("text", PyVal.str "Red")]]) =
      Except.ok ("(Red)|(Limited)|(Red)", "Red|Limited") ∧
    (∀ s : String, summarize_formats (PyVal.str s) = Except.ok ("", "")) ∧
    (∀ n : Int, summarize_formats (PyVal.int n) = Except.ok ("", "")) ∧
    summarize_formats PyVal.none = Except.ok ("", "") ∧
    (∀ kvs : List (String × PyVal),
        summarize_formats (PyVal.dict kvs) = Except.ok ("", "")) :=
  ⟨fun _ => rfl, dedupFirst_cons, rfl,
   fun l => (dedupFirstAux_nodup [] l).1,
   fun l => dedupFirstAux_sublist [] l,
   by rfl,
   fun _ => rfl, fun _ => rfl, rfl, fun _ => rfl⟩

/-! Computation lemmas for one well-typed format entry (lines 44-66). -/

theorem stripAttr_str (s : String) : stripAttr (PyVal.str s) = Except.ok (stripStr s) := by
  by_cases hs : s = ""
  · subst hs; rfl
  · have ht : truthy (PyVal.str s) = true := by simp [truthy, hs]
    unfold stripAttr pyOr
    rw [if_pos ht]

theorem pyIter_orList_map_str (descs : List String) :
    pyIter (pyOr (PyVal.list (descs.map PyVal.str)) (PyVal.list [])) =
      Except.ok (descs.map PyVal.str) := by
  cases descs with
  | nil => rfl
  | cons d rest => rfl

theorem descBits_map_str (descs : List String) :
    descBits (descs.map PyVal.str) =
      Except.ok ((descs.map stripStr).filter (fun d => d != "" && kwMatch d)) := by
  induction descs with
  | nil => rfl
  | cons d rest ih =>
    show (stripAttr (PyVal.str d) >>= fun ds =>
        descBits (rest.map PyVal.str) >>= fun tail =>
        Except.ok ((if ds != "" && kwMatch ds then [ds] else []) ++ tail)) = _
    rw [stripAttr_str, ok_bind, ih, ok_bind, List.map_cons, List.filter_cons]
    by_cases hc : (stripStr d != "" && kwMatch (stripStr d)) = true
    · rw [if_pos hc, if_pos hc]
      rfl
    · rw [if_neg hc, if_neg hc]
      rfl

theorem filter_truthy_map_str (descs : List String) :
    (descs.map PyVal.str).filter truthy =
      (descs.filter (fun d => d != "")).map PyVal.str := by
  induction descs with
  | nil => rfl
  | cons d rest ih =>
    rw [List.map_cons, List.filter_cons, List.filter_cons]
    by_cases hd : (d != "") = true
    · rw [if_pos (show truthy (PyVal.str d) = true from hd), if_pos hd,
        List.map_cons, ih]
    · rw [if_neg (show ¬truthy (PyVal.str d) = true from hd), if_neg hd, ih]

theorem joinStrsE_map_str (l : List String) :
    joinStrsE (l.map PyVal.str) = Except.ok l := by
  induction l with
  | nil => rfl
  | cons s rest ih =>
    show (joinStrsE (rest.map PyVal.str) >>= fun tail => Except.ok (s :: tail)) = _
    rw [ih, ok_bind]

/-- Claim C7: summary-piece construction: for an entry with string-valued
`name`, `qty`, `text` and a list of string descriptions, the summary piece
is the trimmed name followed by each non-empty (raw) description,
space-joined and trimmed; when the trimmed text is non-empty the piece is
wrapped as `piece (text)`; when the trimmed qty is non-empty ` xqty` is
appended; an empty piece is discarded.  The spec's worked example
`{name:"Vinyl", qty:"1", text:"Red", descriptions:["LP","Album"]}` yields
the piece `"Vinyl LP Album (Red) x1"`. -/
theorem summary_piece_construction :
    (∀ (name qty text : String) (descs : List String),
        (entryResult (PyVal.dict
            [("name", PyVal.str name), ("qty", PyVal.str qty),
             ("text", PyVal.str text),
             ("descriptions", PyVal.list (descs.map PyVal.str))])).map Prod.snd =
          Except.ok
            (let base := stripStr (" ".intercalate
                (stripStr name :: descs.filter (fun d => d != "")));
             let withText := if stripStr text != "" then
                 stripStr (base ++ " (" ++ stripStr text ++ ")") else base;
             let piece := if stripStr qty != "" then
                 stripStr (withText ++ " x" ++ stripStr qty) else withText;
             if piece != "" then [piece] else [])) ∧
    summarize_formats (PyVal.list [vinylEntry]) =
      Except.ok ("Vinyl LP Album (Red) x1", "Red") := by
  constructor
  · intro name qty text descs
    show ((stripAttr (PyVal.str name) >>= fun nameS =>
        stripAttr (PyVal.str qty) >>= fun qtyS =>
        stripAttr (PyVal.str text) >>= fun textS =>
        pyIter (pyOr (PyVal.list (descs.map PyVal.str)) (PyVal.list [])) >>= fun ds =>
        descBits ds >>= fun bits2 =>
        joinStrsE (ds.filter truthy) >>= fun joined =>
        (Except.ok
          ((if textS != "" then [textS] else []) ++ bits2,
           (let piece0 := stripStr (" ".intercalate (nameS :: joined));
            let piece1 := if textS != "" then
                stripStr (piece0 ++ " (" ++ textS ++ ")") else piece0;
            let piece2 := if qtyS != "" then
                stripStr (piece1 ++ " x" ++ qtyS) else piece1;
            if piece2 != "" then [piece2] else [])) :
          Except String (List String × List String))).map Prod.snd) = _
    rw [stripAttr_str, ok_bind, stripAttr_str, ok_bind, stripAttr_str, ok_bind,
      pyIter_orList_map_str, ok_bind, descBits_map_str, ok_bind,
      filter_truthy_map_str, joinStrsE_map_str, ok_bind]
    rfl
  · rfl

/-! Totality of `summarize_formats` on well-formed entries (claim C8). -/

theorem isOk_exists {α : Type} {e : Except String α} (h : e.isOk = true) :
    ∃ v, e = Except.ok v := by
  cases e with
  | ok v => exact ⟨v, rfl⟩
  | error er => exact Bool.noConfusion h

theorem pyOr_falsy {a : PyVal} (b : PyVal) (h : truthy a = false) :
    pyOr a b = b := by
  unfold pyOr
  rw [h]
  exact if_neg (by simp)

theorem pyOr_truthy {a : PyVal} (b : PyVal) (h : truthy a = true) :
    pyOr a b = a := by
  unfold pyOr
  rw [h]
  exact if_pos rfl

theorem stripAttr_ok_of_falsy {v : PyVal} (h : truthy v = false) :
    stripAttr v = Except.ok "" := by
  unfold stripAttr
  rw [pyOr_falsy (PyVal.str "") h]
  rfl

theorem stripAttr_isOk_of_strOrFalsy {v : PyVal} (h : strOrFalsy v = true) :
    (stripAttr v).isOk = true := by
  cases hv : truthy v with
  | false => rw [stripAttr_ok_of_falsy hv]; rfl
  | true =>
    cases v with
    | str s => rw [stripAttr_str]; rfl
    | none => exact Bool.noConfusion hv
    | int n =>
      rw [show strOrFalsy (PyVal.int n) = !truthy (PyVal.int n) from rfl, hv] at h
      exact Bool.noConfusion h
    | list xs =>
      rw [show strOrFalsy (PyVal.list xs) = !truthy (PyVal.list xs) from rfl, hv] at h
      exact Bool.noConfusion h
    | dict kvs =>
      rw [show strOrFalsy (PyVal.dict kvs) = !truthy (PyVal.dict kvs) from rfl, hv] at h
      exact Bool.noConfusion h

theorem descBits_isOk {ds : List PyVal} (h : ds.all strOrFalsy = true) :
    ∃ bits, descBits ds = Except.ok bits := by
  induction ds with
  | nil => exact ⟨[], rfl⟩
  | cons d rest ih =>
    rw [List.all_cons, Bool.and_eq_true] at h
    obtain ⟨tail, htail⟩ := ih h.2
    obtain ⟨s, hs⟩ := isOk_exists (stripAttr_isOk_of_strOrFalsy h.1)
    refine ⟨(if s != "" && kwMatch s then [s] else []) ++ tail, ?_⟩
    show (stripAttr d >>= fun ds2 => descBits rest >>= fun tail2 =>
        Except.ok ((if ds2 != "" && kwMatch ds2 then [ds2] else []) ++ tail2)) = _
    rw [hs, ok_bind, htail, ok_bind]

theorem joinStrsE_filter_isOk {ds : List PyVal} (h : ds.all strOrFalsy = true) :
    ∃ l, joinStrsE (ds.filter truthy) = Except.ok l := by
  induction ds with
  | nil => exact ⟨[], rfl⟩
  | cons d rest ih =>
    rw [List.all_cons, Bool.and_eq_true] at h
    obtain ⟨l, hl⟩ := ih h.2
    rw [List.filter_cons]
    by_cases hd : truthy d = true
    · rw [if_pos hd]
      cases d with
      | str s =>
        refine ⟨s :: l, ?_⟩
        show (joinStrsE (rest.filter truthy) >>= fun tail =>
            Except.ok (s :: tail)) = _
        rw [hl, ok_bind]
      | none => exact Bool.noConfusion hd
      | int n =>
        rw [show strOrFalsy (PyVal.int n) = !truthy (PyVal.int n) from rfl, hd] at h
        exact Bool.noConfusion h.1
      | list xs =>
        rw [show strOrFalsy (PyVal.list xs) = !truthy (PyVal.list xs) from rfl, hd] at h
        exact Bool.noConfusion h.1
      | dict kvs =>
        rw [show strOrFalsy (PyVal.dict kvs) = !truthy (PyVal.dict kvs) from rfl, hd] at h
        exact Bool.noConfusion h.1
    · rw [if_neg hd]
      exact ⟨l, hl⟩

theorem descsVal_iter {dv : PyVal}
    (h : (match dv with
          | PyVal.list ds => ds.all strOrFalsy
          | d => !truthy d) = true) :
    ∃ ds, pyIter (pyOr dv (PyVal.list [])) = Except.ok ds ∧
      ds.all strOrFalsy = true := by
  cases hv : truthy dv with
  | false => rw [pyOr_falsy _ hv]; exact ⟨[], rfl, rfl⟩
  | true =>
    rw [pyOr_truthy _ hv]
    cases dv with
    | list ds => exact ⟨ds, rfl, h⟩
    | none => exact Bool.noConfusion hv
    | str s =>
      have h2 : (!truthy (PyVal.str s)) = true := h
      rw [hv] at h2
      exact Bool.noConfusion h2
    | int n =>
      have h2 : (!truthy (PyVal.int n)) = true := h
      rw [hv] at h2
      exact Bool.noConfusion h2
    | dict kvs =>
      have h2 : (!truthy (PyVal.dict kvs)) = true := h
      rw [hv] at h2
      exact Bool.noConfusion h2

theorem entryResult_isOk {fmt : PyVal} (h : wfEntry fmt = true) :
    ∃ bp, entryResult fmt = Except.ok bp := by
  cases fmt with
  | none => exact ⟨([], []), rfl⟩
  | str s => exact ⟨([], []), rfl⟩
  | int n => exact ⟨([], []), rfl⟩
  | list xs => exact ⟨([], []), rfl⟩
  | dict kvs =>
    rw [show wfEntry (PyVal.dict kvs) =
        (strOrFalsy (lookupD kvs "name" PyVal.none) &&
         strOrFalsy (lookupD kvs "qty" PyVal.none) &&
         strOrFalsy (lookupD kvs "text" PyVal.none) &&
         (match lookupD kvs "descriptions" (PyVal.list []) with
          | PyVal.list ds => ds.all strOrFalsy
          | d => !truthy d)) from rfl] at h
    rw [Bool.and_eq_true, Bool.and_eq_true, Bool.and_eq_true] at h
    obtain ⟨⟨⟨hname, hqty⟩, htext⟩, hdescs⟩ := h
    obtain ⟨nameS, hn⟩ := isOk_exists (stripAttr_isOk_of_strOrFalsy hname)
    obtain ⟨qtyS, hq⟩ := isOk_exists (stripAttr_isOk_of_strOrFalsy hqty)
    obtain ⟨textS, ht⟩ := isOk_exists (stripAttr_isOk_of_strOrFalsy htext)
    obtain ⟨ds, hds, hdall⟩ := descsVal_iter hdescs
    obtain ⟨bits2, hbits⟩ := descBits_isOk hdall
    obtain ⟨joined, hjoin⟩ := joinStrsE_filter_isOk hdall
    refine ⟨?_, ?_⟩
    case _ => exact
      ((if textS != "" then [textS] else []) ++ bits2,
       (let piece0 := stripStr (" ".intercalate (nameS :: joined));
        let piece1 := if textS != "" then
            stripStr (piece0 ++ " (" ++ textS ++ ")") else piece0;
        let piece2 := if qtyS != "" then
            stripStr (piece1 ++ " x" ++ qtyS) else piece1;
        if piece2 != "" then [piece2] else []))
    show (stripAttr (lookupD kvs "name" PyVal.none) >>= fun nameS2 =>
        stripAttr (lookupD kvs "qty" PyVal.none) >>= fun qtyS2 =>
        stripAttr (lookupD kvs "text" PyVal.none) >>= fun textS2 =>
        pyIter (pyOr (lookupD kvs "descriptions" (PyVal.list []))
          (PyVal.list [])) >>= fun ds2 =>
        descBits ds2 >>= fun bits =>
        joinStrsE (ds2.filter truthy) >>= fun joined2 =>
        Except.ok
          ((if textS2 != "" then [textS2] else []) ++ bits,
           (let piece0 := stripStr (" ".intercalate (nameS2 :: joined2));
            let piece1 := if textS2 != "" then
                stripStr (piece0 ++ " (" ++ textS2 ++ ")") else piece0;
            let piece2 := if qtyS2 != "" then
                stripStr (piece1 ++ " x" ++ qtyS2) else piece1;
            if piece2 != "" then [piece2] else []))) = _
    rw [hn, ok_bind, hq, ok_bind, ht, ok_bind, hds, ok_bind, hbits, ok_bind,
      hjoin, ok_bind]

theorem summarizeEntries_isOk {fmts : List PyVal} (h : fmts.all wfEntry = true) :
    ∃ bp, summarizeEntries fmts = Except.ok bp := by
  induction fmts with
  | nil => exact ⟨([], []), rfl⟩
  | cons fmt rest ih =>
    rw [List.all_cons, Bool.and_eq_true] at h
    obtain ⟨bp, hbp⟩ := entryResult_isOk h.1
    obtain ⟨bpr, hbpr⟩ := ih h.2
    refine ⟨(bp.1 ++ bpr.1, bp.2 ++ bpr.2), ?_⟩
    show (entryResult fmt >>= fun bp2 => summarizeEntries rest >>= fun bpr2 =>
        Except.ok (bp2.1 ++ bpr2.1, bp2.2 ++ bpr2.2)) = _
    rw [hbp, ok_bind, hbpr, ok_bind]

theorem summarizeEntries_skip {v : PyVal} (rest : List PyVal)
    (hnd : isDictB v = false) :
    summarizeEntries (v :: rest) = summarizeEntries rest := by
  have he : entryResult v = Except.ok ([], []) := by
    cases v with
    | dict kvs => exact Bool.noConfusion hnd
    | none => rfl
    | str s => rfl
    | int n => rfl
    | list xs => rfl
  show (entryResult v >>= fun bp => summarizeEntries rest >>= fun bpr =>
      Except.ok (bp.1 ++ bpr.1, bp.2 ++ bpr.2)) = _
  rw [he, ok_bind]
  cases hr : summarizeEntries rest with
  | error e => rw [error_bind]
  | ok bpr =>
    rw [ok_bind]
    rfl

/-- Counterexample to claim C8 as stated: a truthy non-list `descriptions`
value is not treated as the empty list.  With `descriptions = 5` the code
raises `TypeError` (the run fails), and with `descriptions = "LP"` the
string is iterated character by character, yielding the piece
`"Vinyl L P"` instead of the `"Vinyl"` that an empty-list treatment would
give. -/
theorem summarize_formats_malformed_cex :
    (summarize_formats (PyVal.list [intDescsEntry])).isOk = false ∧
    summarize_formats (PyVal.list [strDescsEntry]) =
      Except.ok ("Vinyl L P", "") ∧
    ("Vinyl L P" : String) ≠ "Vinyl" :=
  ⟨rfl, rfl, by decide⟩

/-- Claim C8 (amended): `summarize_formats` never raises provided every
entry's `name`, `qty` and `text` values are strings or falsy and its
`descriptions` value is falsy or a list of strings-or-falsy values
(`wfEntry`); non-dict entries are skipped individually.  (As stated the
claim fails: a truthy non-list `descriptions` value is iterated, not
treated as the empty list, and raises `TypeError` when not iterable.) -/
theorem summarize_formats_totality :
    (∀ fmts : List PyVal, fmts.all wfEntry = true →
        (summarize_formats (PyVal.list fmts)).isOk = true) ∧
    (∀ (v : PyVal) (rest : List PyVal), isDictB v = false →
        summarizeEntries (v :: rest) = summarizeEntries rest) := by
  constructor
  · intro fmts h
    obtain ⟨bp, hbp⟩ := summarizeEntries_isOk h
    show (Except.map (fun bp =>
        ("|".intercalate bp.2,
         clean_text (PyVal.str ("|".intercalate (dedupFirst bp.1)))))
      (summarizeEntries fmts)).isOk = true
    rw [hbp]
    rfl
  · intro v rest hnd
    exact summarizeEntries_skip rest hnd

/-- Witness for `summarize_formats_totality` at concrete inputs. -/
theorem summarize_formats_totality_witness :
    (summarize_formats (PyVal.list [vinylEntry])).isOk = true ∧
    summarizeEntries [PyVal.int 3] = summarizeEntries [] :=
  ⟨summarize_formats_totality.1 [vinylEntry] rfl,
   summarize_formats_totality.2 (PyVal.int 3) [] rfl⟩

/-! Field-level facts about assembled rows (claims C3 and C4). -/

theorem summarize_snd_normalized {v : PyVal} {p : String × String}
    (h : summarize_formats v = Except.ok p) : isNormalized p.2 = true := by
  cases v with
  | list fmts =>
    have h2 : Except.map (fun bp =>
        ("|".intercalate bp.2,
         clean_text (PyVal.str ("|".intercalate (dedupFirst bp.1)))))
      (summarizeEntries fmts) = Except.ok p := h
    obtain ⟨bp, _, hf⟩ := map_ok_elim h2
    rw [← hf]
    exact isNormalized_clean_text _
  | none =>
    injection h with h
    rw [← h]
    rfl
  | str s =>
    injection h with h
    rw [← h]
    rfl
  | int n =>
    injection h with h
    rw [← h]
    rfl
  | dict kvs =>
    injection h with h
    rw [← h]
    rfl

theorem assembleRow_normalized {relId ci basic full : PyVal} {row : Row}
    (h : assembleRow relId ci basic full = Except.ok row) :
    isNormalized row.artist = true ∧ isNormalized row.title = true ∧
    isNormalized row.date_added = true ∧ isNormalized row.variant = true ∧
    isNormalized row.release_date = true ∧ isNormalized row.country = true ∧
    isNormalized row.label = true := by
  unfold assembleRow at h
  obtain ⟨artists, _, h⟩ := bind_ok_elim h
  obtain ⟨labels, _, h⟩ := bind_ok_elim h
  obtain ⟨formats, _, h⟩ := bind_ok_elim h
  obtain ⟨genres, _, h⟩ := bind_ok_elim h
  obtain ⟨styles, _, h⟩ := bind_ok_elim h
  obtain ⟨ids, _, h⟩ := bind_ok_elim h
  obtain ⟨fv, hfv, h⟩ := bind_ok_elim h
  obtain ⟨masterId, _, h⟩ := bind_ok_elim h
  obtain ⟨artistS, _, h⟩ := bind_ok_elim h
  obtain ⟨titleV, _, h⟩ := bind_ok_elim h
  obtain ⟨dateAddedV, _, h⟩ := bind_ok_elim h
  obtain ⟨rdF, _, h⟩ := bind_ok_elim h
  obtain ⟨rdY, _, h⟩ := bind_ok_elim h
  obtain ⟨releasedV, _, h⟩ := bind_ok_elim h
  obtain ⟨countryV, _, h⟩ := bind_ok_elim h
  obtain ⟨labelS, _, h⟩ := bind_ok_elim h
  obtain ⟨catnoS, _, h⟩ := bind_ok_elim h
  obtain ⟨genresS, _, h⟩ := bind_ok_elim h
  obtain ⟨stylesS, _, h⟩ := bind_ok_elim h
  injection h with h
  rw [← h]
  exact ⟨isNormalized_clean_text _, isNormalized_clean_text _,
    isNormalized_clean_text _, summarize_snd_normalized hfv,
    isNormalized_clean_text _, isNormalized_clean_text _,
    isNormalized_clean_text _⟩

/-- Counterexample to claim C3 as stated: the genres field of an emitted
row is a plain `|`-join that does not pass through TextNormalizer, so it
can carry an embedded newline and fail the single-line normalization
invariant. -/
theorem text_fields_not_all_normalized_cex :
    (processItem false genreNewlineItem).map
        (fun o => o.map (fun r => isNormalized r.genres)) =
      Except.ok (some false) ∧
    (processItem false genreNewlineItem).map (fun o => o.map Row.genres) =
      Except.ok (some "Rock\nPop") :=
  ⟨rfl, rfl⟩

/-- Claim C3 (amended): in every emitted row the artist, title, date_added,
variant, release_date, country and label fields are produced by
TextNormalizer and hence single-line and whitespace-normalized; every
text-bearing field is a string by construction, never a language-native
null.  (As stated the claim fails: format, catno, genres and styles are
plain `|`-joins of raw values and are not passed through TextNormalizer.) -/
theorem clean_text_fields_normalized :
    ∀ (f : Bool) (it : Item) (row : Row),
      processItem f it = Except.ok (some row) →
      isNormalized row.artist = true ∧ isNormalized row.title = true ∧
      isNormalized row.date_added = true ∧ isNormalized row.variant = true ∧
      isNormalized row.release_date = true ∧ isNormalized row.country = true ∧
      isNormalized row.label = true := by
  intro f it row h
  unfold processItem at h
  cases hit : itemCtx it with
  | error e => rw [hit, error_bind] at h; exact Except.noConfusion h
  | ok ctx =>
    rw [hit, ok_bind] at h
    by_cases hrel : truthy ctx.2.2 = false
    · rw [if_pos hrel] at h
      injection h with h
      exact Option.noConfusion h
    · rw [if_neg hrel] at h
      obtain ⟨row2, hrow2, hinj⟩ := bind_ok_elim h
      injection hinj with hinj
      injection hinj with hinj
      subst hinj
      exact assembleRow_normalized hrow2

/-- Witness for `clean_text_fields_normalized` at a concrete emitted row. -/
theorem clean_text_fields_normalized_witness :
    isNormalized rowWithId.artist = true ∧ isNormalized rowWithId.title = true ∧
    isNormalized rowWithId.date_added = true ∧ isNormalized rowWithId.variant = true ∧
    isNormalized rowWithId.release_date = true ∧ isNormalized rowWithId.country = true ∧
    isNormalized rowWithId.label = true :=
  clean_text_fields_normalized false itemWithId rowWithId rfl

theorem assembleRow_release_date {relId ci : PyVal}
    {fkvs bkvs : List (String × PyVal)} {row : Row}
    (h : assembleRow relId ci (PyVal.dict bkvs) (PyVal.dict fkvs) = Except.ok row) :
    row.release_date = clean_text
      (if truthy (lookupD fkvs "released" PyVal.none) = true
       then lookupD fkvs "released" PyVal.none
       else lookupD bkvs "released"
         (pyOr (lookupD bkvs "released_formatted" PyVal.none)
               (lookupD bkvs "year" PyVal.none))) := by
  unfold assembleRow at h
  obtain ⟨artists, _, h⟩ := bind_ok_elim h
  obtain ⟨labels, _, h⟩ := bind_ok_elim h
  obtain ⟨formats, _, h⟩ := bind_ok_elim h
  obtain ⟨genres, _, h⟩ := bind_ok_elim h
  obtain ⟨styles, _, h⟩ := bind_ok_elim h
  obtain ⟨ids, _, h⟩ := bind_ok_elim h
  obtain ⟨fv, _, h⟩ := bind_ok_elim h
  obtain ⟨masterId, _, h⟩ := bind_ok_elim h
  obtain ⟨artistS, _, h⟩ := bind_ok_elim h
  obtain ⟨titleV, _, h⟩ := bind_ok_elim h
  obtain ⟨dateAddedV, _, h⟩ := bind_ok_elim h
  obtain ⟨rdF, hrdF, h⟩ := bind_ok_elim h
  obtain ⟨rdY, hrdY, h⟩ := bind_ok_elim h
  obtain ⟨releasedV, hrel, h⟩ := bind_ok_elim h
  obtain ⟨countryV, _, h⟩ := bind_ok_elim h
  obtain ⟨labelS, _, h⟩ := bind_ok_elim h
  obtain ⟨catnoS, _, h⟩ := bind_ok_elim h
  obtain ⟨genresS, _, h⟩ := bind_ok_elim h
  obtain ⟨stylesS, _, h⟩ := bind_ok_elim h
  injection h with h
  rw [← h]
  injection hrdF with hrdF
  injection hrdY with hrdY
  rw [pick_dict_eq] at hrel
  injection hrel with hrel
  rw [← hrel, ← hrdF, ← hrdY]

/-- Counterexample to claim C4 as stated: with `full = {}` and
`basic = {released: "", released_formatted: "1999", year: 1999}` the
primary `released` field resolves to the falsy `""` (the key is present in
the basic record), yet the emitted release_date is `""` — the
released_formatted/year fallback chain is NOT applied, although the claim
says a falsy resolution falls back to `"1999"`. -/
theorem release_date_fallback_cex :
    (processItem false releasedEmptyItem).map
        (fun o => o.map Row.release_date) = Except.ok (some "") ∧
    clean_text (PyVal.str "1999") = "1999" ∧ ("" : String) ≠ "1999" :=
  ⟨rfl, rfl, by decide⟩

/-- Claim C4 (amended): the release_date field is
`clean_text(pick("released", full, basic, basic.get("released_formatted")
or basic.get("year")))`: the full record's `released` value when truthy,
otherwise the basic record's `released` value whenever that key is present
(even when it is falsy), and only when the `released` key is absent from
the basic record the pre-formatted release-date string, then the bare year
value, in that order, before TextNormalizer is applied.  (As stated the
claim fails: a present-but-falsy basic `released` value does NOT fall back
to released_formatted/year.) -/
theorem release_date_resolution :
    ∀ (relId ci : PyVal) (fkvs bkvs : List (String × PyVal)) (row : Row),
      assembleRow relId ci (PyVal.dict bkvs) (PyVal.dict fkvs) = Except.ok row →
      row.release_date = clean_text
        (if truthy (lookupD fkvs "released" PyVal.none) = true
         then lookupD fkvs "released" PyVal.none
         else lookupD bkvs "released"
           (pyOr (lookupD bkvs "released_formatted" PyVal.none)
                 (lookupD bkvs "year" PyVal.none))) :=
  fun _ _ _ _ _ h => assembleRow_release_date h

/-- Witness for `release_date_resolution` at a concrete row. -/
theorem release_date_resolution_witness :
    rowWithId.release_date = clean_text
      (if truthy (lookupD [] "released" PyVal.none) = true
       then lookupD [] "released" PyVal.none
       else lookupD [] "released"
         (pyOr (lookupD [] "released_formatted" PyVal.none)
               (lookupD [] "year" PyVal.none))) :=
  release_date_resolution (PyVal.int 1) (PyVal.dict []) [] [] rowWithId rfl
